import Mathlib

/-
Verification of the cacher library (github.com/SmallSmartMouse/cacher).

The development shallowly embeds the cache engine: src/cache.go (the
table registry) and the cache table implementation (src/unnamed/part_001,
the file named cachetable.go in the repository).  Go maps are embedded as
association lists with unique keys, time.Time and time.Duration values as
Nat (nanoseconds; the data model of the specification makes lifespans
non-negative), Go nil-able interface values as Option, and Go errors as an
explicit error type.  Callbacks are embedded as opaque identifiers of a
type C; an operation returns, besides its result and the new table state,
a trace of events recording write-lock acquisition and release, map
mutation and callback invocation, in the order the Go statements execute
them.  A sequential (single-goroutine) execution is modelled; the trace
makes the lock discipline of each operation inspectable.

Fields of CacheTable that the claims never touch (the logger sink and the
singleflight group value) are not carried in the state; the singleflight
gate is modelled at its use site in Get, and the log method is a no-op
observationally.
-/

namespace Cacher

universe u v

/-- Association-list lookup: the Go map read items[key]. -/
def lookupAL {K : Type u} {A : Type v} [DecidableEq K] : List (K × A) → K → Option A
  | [], _ => none
  | (k, a) :: rest, key => if k = key then some a else lookupAL rest key

/-- Association-list update: the Go map write items[key] = a (replaces the
binding if the key is present, otherwise appends it). -/
def insertAL {K : Type u} {A : Type v} [DecidableEq K] : List (K × A) → K → A → List (K × A)
  | [], key, a => [(key, a)]
  | (k, b) :: rest, key, a =>
      if k = key then (key, a) :: rest else (k, b) :: insertAL rest key a

/-- Association-list removal: the Go built-in delete(items, key). -/
def eraseAL {K : Type u} {A : Type v} [DecidableEq K] : List (K × A) → K → List (K × A)
  | [], _ => []
  | (k, b) :: rest, key => if k = key then rest else (k, b) :: eraseAL rest key

/-- CacheItem (from the repository file cacheitem.go, which is not under
src/; its fields are fixed by the data model of the specification, section
3, and they are read throughout src/unnamed/part_001).  data is the Go
interface value (none embeds Go nil), aboutToExpire the per-entry
callback queue. -/
structure CacheItem (K : Type) (V : Type) (C : Type) where
  key : K
  data : Option V
  lifeSpan : Nat
  createdOn : Nat
  accessedOn : Nat
  accessCount : Nat
  aboutToExpire : List C
deriving DecidableEq, Repr

/-- Modelled from the spec: NewCacheItem (constructor in cacheitem.go,
missing from src/).  Section 4.2: the new entry has createdOn = accessedOn
= now and accessCount = 0; the about-to-expire queue starts empty. -/
def NewCacheItem {K V C : Type} (key : K) (lifeSpan : Nat) (data : Option V)
    (now : Nat) : CacheItem K V C :=
  { key := key
    data := data
    lifeSpan := lifeSpan
    createdOn := now
    accessedOn := now
    accessCount := 0
    aboutToExpire := [] }

/-- Modelled from the spec: KeepAlive (cacheitem.go, missing from src/).
Section 4.4: sets accessedOn to now and increments accessCount by one. -/
def KeepAlive {K V C : Type} (item : CacheItem K V C) (now : Nat) : CacheItem K V C :=
  { item with accessedOn := now, accessCount := item.accessCount + 1 }

/-- Modelled from the spec: RemoveAboutToExpireCallback (cacheitem.go,
missing from src/).  Section 4.8: clears the per-entry queue. -/
def RemoveAboutToExpireCallback {K V C : Type} (item : CacheItem K V C) : CacheItem K V C :=
  { item with aboutToExpire := [] }

/-- Modelled from the spec: AddAboutToExpireCallback (cacheitem.go,
missing from src/).  Section 4.8: appends without clearing. -/
def AddAboutToExpireCallback {K V C : Type} (f : C) (item : CacheItem K V C) :
    CacheItem K V C :=
  { item with aboutToExpire := item.aboutToExpire ++ [f] }

/-- Modelled from the spec: SetAboutToExpireCallback (cacheitem.go,
missing from src/).  Section 4.8: if the queue is non-empty, clear it
first, then append f. -/
def SetAboutToExpireCallback {K V C : Type} (f : C) (item : CacheItem K V C) :
    CacheItem K V C :=
  AddAboutToExpireCallback f
    (if item.aboutToExpire.length > 0 then RemoveAboutToExpireCallback item else item)

/-- Events recorded by the embedding, in Go statement order: write-lock
acquisition and release, the two map mutations, and the three kinds of
callback invocation with their arguments. -/
inductive Event (K : Type) (V : Type) (C : Type) where
  | lock : Event K V C
  | unlock : Event K V C
  | insertItem (k : K) (item : CacheItem K V C) : Event K V C
  | removeItem (k : K) : Event K V C
  | invokeAdded (c : C) (item : CacheItem K V C) : Event K V C
  | invokeAboutToDelete (c : C) (item : CacheItem K V C) : Event K V C
  | invokeAboutToExpire (c : C) (k : K) : Event K V C
deriving DecidableEq, Repr

/-- Errors surfaced by table operations: ErrKeyNotFound, or an error value
produced by a caller-supplied loader (propagated by Get). -/
inductive CErr (E : Type) where
  | keyNotFound : CErr E
  | loaderErr (e : E) : CErr E
deriving DecidableEq, Repr

/-- CacheTable (src/unnamed/part_001, lines 17-42).  The loader returns
(value, lifeSpan, error); janitor carries the interval of the running
janitor when one is present. -/
structure CacheTable (K : Type) (V : Type) (C : Type) (E : Type) where
  name : String
  items : List (K × CacheItem K V C)
  cleanupInterval : Nat
  defaultExpiration : Nat
  enableNullData : Bool
  enableAutoLoad : Bool
  janitor : Option Nat
  loadData : Option (K → Option V × Nat × Option E)
  addedItem : List C
  aboutToDeleteItem : List C

variable {K V C E : Type}

/-- EnableNullData (part_001, lines 61-65). -/
def EnableNullData (table : CacheTable K V C E) (b : Bool) : CacheTable K V C E :=
  { table with enableNullData := b }

/-- SetDataLoader (part_001, lines 70-75): sets enableAutoLoad together
with the loader. -/
def SetDataLoader (table : CacheTable K V C E)
    (f : K → Option V × Nat × Option E) : CacheTable K V C E :=
  { table with enableAutoLoad := true, loadData := some f }

/-- RemoveAddedItemCallbacks (part_001, lines 96-100). -/
def RemoveAddedItemCallbacks (table : CacheTable K V C E) : CacheTable K V C E :=
  { table with addedItem := [] }

/-- AddAddedItemCallback (part_001, lines 89-93). -/
def AddAddedItemCallback (table : CacheTable K V C E) (f : C) : CacheTable K V C E :=
  { table with addedItem := table.addedItem ++ [f] }

/-- SetAddedItemCallback (part_001, lines 79-86): if the queue is
non-empty, empty it, then append f. -/
def SetAddedItemCallback (table : CacheTable K V C E) (f : C) : CacheTable K V C E :=
  AddAddedItemCallback
    (if table.addedItem.length > 0 then RemoveAddedItemCallbacks table else table) f

/-- RemoveAboutToDeleteItemCallback (part_001, lines 121-125). -/
def RemoveAboutToDeleteItemCallback (table : CacheTable K V C E) : CacheTable K V C E :=
  { table with aboutToDeleteItem := [] }

/-- AddAboutToDeleteItemCallback (part_001, lines 114-118). -/
def AddAboutToDeleteItemCallback (table : CacheTable K V C E) (f : C) : CacheTable K V C E :=
  { table with aboutToDeleteItem := table.aboutToDeleteItem ++ [f] }

/-- SetAboutToDeleteItemCallback (part_001, lines 104-111). -/
def SetAboutToDeleteItemCallback (table : CacheTable K V C E) (f : C) : CacheTable K V C E :=
  AddAboutToDeleteItemCallback
    (if table.aboutToDeleteItem.length > 0 then RemoveAboutToDeleteItemCallback table else table) f

/-- addInternal (part_001, lines 175-189).  The caller holds the table
write lock; the method stores the item, snapshots the addedItem queue and
invokes every callback in it, in order, WITHOUT releasing the lock (its
own comment announces an unlock that the body does not perform).  The
trace records the store and the callback invocations; lock events belong
to the caller. -/
def addInternal [DecidableEq K] (table : CacheTable K V C E) (item : CacheItem K V C) :
    CacheTable K V C E × List (Event K V C) :=
  ({ table with items := insertAL table.items item.key item },
   Event.insertItem item.key item ::
     table.addedItem.map (fun c => Event.invokeAdded c item))

/-- Set (part_001, lines 196-205): builds the new item, then Lock,
addInternal, Unlock, and returns the item. -/
def Set [DecidableEq K] (table : CacheTable K V C E) (key : K) (lifeSpan : Nat)
    (data : Option V) (now : Nat) :
    CacheItem K V C × CacheTable K V C E × List (Event K V C) :=
  let item : CacheItem K V C := NewCacheItem key lifeSpan data now
  let r := addInternal table item
  (item, r.1, Event.lock :: r.2 ++ [Event.unlock])

/-- deleteInternal (part_001, lines 207-237).  The caller holds the write
lock.  On a missing key it fails with ErrKeyNotFound; otherwise it
snapshots the aboutToDeleteItem queue, releases the lock, invokes those
callbacks with the entry and then the per-entry aboutToExpire callbacks
with the key, re-acquires the lock, and only then removes the key. -/
def deleteInternal [DecidableEq K] (table : CacheTable K V C E) (key : K) :
    Except (CErr E) (CacheItem K V C) × CacheTable K V C E × List (Event K V C) :=
  match lookupAL table.items key with
  | none => (Except.error CErr.keyNotFound, table, [])
  | some r =>
      (Except.ok r,
       { table with items := eraseAL table.items key },
       Event.unlock ::
         (table.aboutToDeleteItem.map (fun c => Event.invokeAboutToDelete c r)
          ++ r.aboutToExpire.map (fun c => Event.invokeAboutToExpire c key)
          ++ [Event.lock, Event.removeItem key]))

/-- Delete (part_001, lines 240-245): Lock, deleteInternal, deferred
Unlock. -/
def Delete [DecidableEq K] (table : CacheTable K V C E) (key : K) :
    Except (CErr E) (CacheItem K V C) × CacheTable K V C E × List (Event K V C) :=
  let r := deleteInternal table key
  (r.1, r.2.1, Event.lock :: r.2.2 ++ [Event.unlock])

/-- ExistsKey models Exists (part_001, lines 250-256); the Go name would
shadow the existential quantifier.  Membership test only. -/
def ExistsKey [DecidableEq K] (table : CacheTable K V C E) (key : K) : Bool :=
  (lookupAL table.items key).isSome

/-- Add (part_001, lines 260-271): admission iff the key is absent. -/
def Add [DecidableEq K] (table : CacheTable K V C E) (key : K) (lifeSpan : Nat)
    (data : Option V) (now : Nat) :
    Bool × CacheTable K V C E × List (Event K V C) :=
  match lookupAL table.items key with
  | some _ => (false, table, [Event.lock, Event.unlock])
  | none =>
      let r := addInternal table (NewCacheItem key lifeSpan data now)
      (true, r.1, Event.lock :: r.2 ++ [Event.unlock])

/-- Get (part_001, lines 275-308).  Hit: KeepAlive the entry and return
it.  Miss with a loader: the singleflight gate is modelled from the spec
(section 4.6; the singleflight package is not under src/): in a
sequential execution Do runs the supplied function once and returns its
result.  The function calls the loader; on a loader error with
enableNullData false it propagates the error and admits nothing,
otherwise it admits a new item built from the loader result (whatever
value the loader returned) through addInternal under the write lock.
Miss without a loader: ErrKeyNotFound. -/
def Get [DecidableEq K] (table : CacheTable K V C E) (key : K) (now : Nat) :
    Except (CErr E) (CacheItem K V C) × CacheTable K V C E × List (Event K V C) :=
  match lookupAL table.items key, table.loadData with
  | some r, _ =>
      let r2 := KeepAlive r now
      (Except.ok r2, { table with items := insertAL table.items key r2 }, [])
  | none, some loadData =>
      let t := loadData key
      match t.2.2, table.enableNullData with
      | some e, false => (Except.error (CErr.loaderErr e), table, [])
      | _, _ =>
          let item : CacheItem K V C := NewCacheItem key t.2.1 t.1 now
          let r := addInternal table item
          (Except.ok item, r.1, Event.lock :: r.2 ++ [Event.unlock])
  | none, none => (Except.error CErr.keyNotFound, table, [])

/-- One iteration of the loop body of ExpirationCheck (part_001, lines
147-171) for one (key, item) pair delivered by the range: snapshot
lifeSpan, accessedOn and createdOn from the entry; a zero lifespan is
skipped; an entry expired by creation time is refreshed through
addInternal when auto-load is on, the entry was accessed within the last
two thirds of its lifespan and the loader succeeds, and is otherwise
removed through deleteInternal (result discarded).  When enableAutoLoad
is set but no loader is stored the Go program would call a nil function;
that state is unreachable through the API (SetDataLoader sets both
together) and the model falls through to deletion. -/
def expCheckStep [DecidableEq K] (table : CacheTable K V C E) (now : Nat)
    (kv : K × CacheItem K V C) : CacheTable K V C E × List (Event K V C) :=
  let lifeSpan := kv.2.lifeSpan
  let accessedOn := kv.2.accessedOn
  let createdOn := kv.2.createdOn
  if lifeSpan = 0 then (table, [])
  else if lifeSpan ≤ now - createdOn then
    if table.enableAutoLoad then
      if now - accessedOn ≤ lifeSpan * 2 / 3 then
        match table.loadData with
        | some loadData =>
            let t := loadData kv.1
            match t.2.2 with
            | none =>
                addInternal table (NewCacheItem kv.1 t.2.1 t.1 now)
            | some _ =>
                let r := deleteInternal table kv.1
                (r.2.1, r.2.2)
        | none =>
            let r := deleteInternal table kv.1
            (r.2.1, r.2.2)
      else
        let r := deleteInternal table kv.1
        (r.2.1, r.2.2)
    else
      let r := deleteInternal table kv.1
      (r.2.1, r.2.2)
  else (table, [])

/-- The range loop of ExpirationCheck over the items present when the
pass starts, threading the evolving table state and concatenating the
step traces. -/
def sweepLoop [DecidableEq K] (now : Nat) :
    CacheTable K V C E → List (K × CacheItem K V C) →
    CacheTable K V C E × List (Event K V C)
  | table, [] => (table, [])
  | table, kv :: rest =>
      let s := expCheckStep table now kv
      let r := sweepLoop now s.1 rest
      (r.1, s.2 ++ r.2)

/-- ExpirationCheck (part_001, lines 135-173): Lock, iterate over the
items, Unlock. -/
def ExpirationCheck [DecidableEq K] (table : CacheTable K V C E) (now : Nat) :
    CacheTable K V C E × List (Event K V C) :=
  let r := sweepLoop now table table.items
  (r.1, Event.lock :: r.2 ++ [Event.unlock])

/-- The fate of a single entry under one expiration pass, mirroring the
branch structure of the loop body: the binding that the pass leaves under
the key of the entry (none when the entry is deleted). -/
def sweepOutcome (autoLoad : Bool) (load : Option (K → Option V × Nat × Option E))
    (now : Nat) (k : K) (item : CacheItem K V C) : Option (CacheItem K V C) :=
  if item.lifeSpan = 0 then some item
  else if item.lifeSpan ≤ now - item.createdOn then
    if autoLoad then
      if now - item.accessedOn ≤ item.lifeSpan * 2 / 3 then
        match load with
        | some f =>
            let t := f k
            match t.2.2 with
            | none => some (NewCacheItem k t.2.1 t.1 now)
            | some _ => none
        | none => none
      else none
    else none
  else some item

/-- MostAccessed (part_001, lines 336-363): materialize (key, accessCount)
pairs, sort them with the CacheItemPairList Less relation (descending by
access count; Go sort.Sort guarantees the sorted postcondition and no
particular tie order, realized here by insertion sort), then walk the
first count pairs re-resolving each key in the items map.  count is an
int64 in Go, embedded as Nat: for a negative count the Go loop breaks at
once and returns no entries, a case outside every claim. -/
def MostAccessed [DecidableEq K] (table : CacheTable K V C E) (count : Nat) :
    List (CacheItem K V C) :=
  let p := List.insertionSort (fun a b : K × Nat => b.2 ≤ a.2)
    (table.items.map (fun kv => (kv.1, kv.2.accessCount)))
  (p.take count).filterMap (fun v => lookupAL table.items v.1)

/-- runJanitor (part_001, lines 396-403): installs a janitor with the
given interval on the table and starts it. -/
def runJanitor (table : CacheTable K V C E) (ci : Nat) : CacheTable K V C E :=
  { table with janitor := some ci }

/-- The process-wide registry state: the name-to-table map of cache.go
(lines 15-18). -/
def Registry (K V C E : Type) := List (String × CacheTable K V C E)

/-- New (src/cache.go, lines 23-44): look the name up; when absent,
construct a table carrying only name, cleanupInterval and an empty items
map (every other field keeps its Go zero value — in particular no janitor
is created and runJanitor is never called) and register it.  Returns the
table and the updated registry. -/
def New (reg : Registry K V C E) (name : String) (cleanupInterval : Nat) :
    CacheTable K V C E × Registry K V C E :=
  match lookupAL reg name with
  | some t => (t, reg)
  | none =>
      let t : CacheTable K V C E :=
        { name := name
          items := []
          cleanupInterval := cleanupInterval
          defaultExpiration := 0
          enableNullData := false
          enableAutoLoad := false
          janitor := none
          loadData := none
          addedItem := []
          aboutToDeleteItem := [] }
      (t, insertAL reg name t)

/-- Cache (src/cache.go, lines 48-68): as New with a zero cleanup
interval. -/
def Cache (reg : Registry K V C E) (name : String) :
    CacheTable K V C E × Registry K V C E :=
  match lookupAL reg name with
  | some t => (t, reg)
  | none =>
      let t : CacheTable K V C E :=
        { name := name
          items := []
          cleanupInterval := 0
          defaultExpiration := 0
          enableNullData := false
          enableAutoLoad := false
          janitor := none
          loadData := none
          addedItem := []
          aboutToDeleteItem := [] }
      (t, insertAL reg name t)

/-- Table-level callback invocation events (added or about-to-delete). -/
def isTableCallback : Event K V C → Bool
  | Event.invokeAdded _ _ => true
  | Event.invokeAboutToDelete _ _ => true
  | _ => false

/-- Added-item callback invocation events. -/
def isAddedEvent : Event K V C → Bool
  | Event.invokeAdded _ _ => true
  | _ => false

/-- About-to-delete callback invocation events. -/
def isAboutToDeleteEvent : Event K V C → Bool
  | Event.invokeAboutToDelete _ _ => true
  | _ => false

/-- About-to-expire callback invocation events. -/
def isAboutToExpireEvent : Event K V C → Bool
  | Event.invokeAboutToExpire _ _ => true
  | _ => false

/-- Scans a trace with the current write-lock depth and reports whether
some table-level callback is invoked while the lock is held (depth
positive at the event). -/
def tableCallbackUnderLock : Nat → List (Event K V C) → Bool
  | _, [] => false
  | d, Event.lock :: tr => tableCallbackUnderLock (d + 1) tr
  | d, Event.unlock :: tr => tableCallbackUnderLock (d - 1) tr
  | d, e :: tr => (isTableCallback e && decide (0 < d)) || tableCallbackUnderLock d tr

section Lemmas

variable [DecidableEq K]

theorem lookupAL_insertAL_self (l : List (K × A)) (k : K) (a : A) :
    lookupAL (insertAL l k a) k = some a := by
  induction l with
  | nil => simp [insertAL, lookupAL]
  | cons kb rest ih =>
      obtain ⟨k1, b⟩ := kb
      by_cases h : k1 = k <;> simp [insertAL, lookupAL, h, ih]

theorem lookupAL_insertAL_ne (l : List (K × A)) (k k' : K) (a : A) (h : k' ≠ k) :
    lookupAL (insertAL l k a) k' = lookupAL l k' := by
  induction l with
  | nil => simp [insertAL, lookupAL, Ne.symm h]
  | cons kb rest ih =>
      obtain ⟨k1, b⟩ := kb
      by_cases h1 : k1 = k
      · subst h1
        simp [insertAL, lookupAL, Ne.symm h]
      · by_cases h2 : k1 = k' <;> simp [insertAL, lookupAL, h1, h2, h, ih]

theorem lookupAL_eq_none_of_not_mem_keys (l : List (K × A)) (k : K)
    (h : k ∉ l.map Prod.fst) : lookupAL l k = none := by
  induction l with
  | nil => rfl
  | cons kb rest ih =>
      obtain ⟨k1, b⟩ := kb
      simp only [List.map_cons, List.mem_cons, not_or] at h
      simp [lookupAL, Ne.symm h.1, ih h.2]

theorem lookupAL_of_mem_nodup (l : List (K × A)) (k : K) (a : A)
    (hmem : (k, a) ∈ l) (hnd : (l.map Prod.fst).Nodup) : lookupAL l k = some a := by
  induction l with
  | nil => cases hmem
  | cons kb rest ih =>
      obtain ⟨k1, b⟩ := kb
      simp only [List.map_cons, List.nodup_cons] at hnd
      rcases List.mem_cons.mp hmem with h | h
      · cases h
        simp [lookupAL]
      · have hk : k1 ≠ k := by
          intro he
          exact hnd.1 (he ▸ (List.mem_map.mpr ⟨(k, a), h, rfl⟩))
        simp [lookupAL, hk, ih h hnd.2]

theorem lookupAL_eraseAL_self (l : List (K × A)) (k : K)
    (hnd : (l.map Prod.fst).Nodup) : lookupAL (eraseAL l k) k = none := by
  induction l with
  | nil => rfl
  | cons kb rest ih =>
      obtain ⟨k1, b⟩ := kb
      simp only [List.map_cons, List.nodup_cons] at hnd
      by_cases h : k1 = k
      · subst h
        have he : eraseAL ((k1, b) :: rest) k1 = rest := by simp [eraseAL]
        rw [he]
        exact lookupAL_eq_none_of_not_mem_keys rest k1 hnd.1
      · simp [eraseAL, lookupAL, h, ih hnd.2]

theorem lookupAL_eraseAL_ne (l : List (K × A)) (k k' : K) (h : k' ≠ k) :
    lookupAL (eraseAL l k) k' = lookupAL l k' := by
  induction l with
  | nil => rfl
  | cons kb rest ih =>
      obtain ⟨k1, b⟩ := kb
      by_cases h1 : k1 = k
      · subst h1
        simp [eraseAL, lookupAL, Ne.symm h]
      · by_cases h2 : k1 = k' <;> simp [eraseAL, lookupAL, h1, h2, h, ih]

theorem mem_of_lookupAL (l : List (K × A)) (k : K) (a : A)
    (h : lookupAL l k = some a) : (k, a) ∈ l := by
  induction l with
  | nil => cases h
  | cons kb rest ih =>
      obtain ⟨k1, b⟩ := kb
      by_cases h1 : k1 = k
      · subst h1
        simp only [lookupAL, if_true, eq_self_iff_true, Option.some.injEq] at h
        subst h
        exact List.mem_cons_self _ _
      · simp only [lookupAL, if_neg h1] at h
        exact List.mem_cons_of_mem _ (ih h)

/-- A sweep step only rewrites the items map; every configuration field of
the table is preserved. -/
theorem expCheckStep_config (table : CacheTable K V C E) (now : Nat)
    (kv : K × CacheItem K V C) :
    (expCheckStep table now kv).1.enableAutoLoad = table.enableAutoLoad ∧
    (expCheckStep table now kv).1.loadData = table.loadData ∧
    (expCheckStep table now kv).1.addedItem = table.addedItem ∧
    (expCheckStep table now kv).1.aboutToDeleteItem = table.aboutToDeleteItem := by
  unfold expCheckStep addInternal deleteInternal
  dsimp only
  repeat' split
  all_goals exact ⟨rfl, rfl, rfl, rfl⟩

/-- A sweep step never touches bindings under other keys. -/
theorem expCheckStep_lookup_ne (table : CacheTable K V C E) (now : Nat)
    (kv : K × CacheItem K V C) (k : K) (h : k ≠ kv.1) :
    lookupAL (expCheckStep table now kv).1.items k = lookupAL table.items k := by
  unfold expCheckStep addInternal deleteInternal
  dsimp only
  repeat' split
  all_goals first
    | rfl
    | simp_all [NewCacheItem, lookupAL_insertAL_ne _ _ _ _ h, lookupAL_eraseAL_ne _ _ _ h]

theorem insertAL_cons_self (rest : List (K × A)) (k : K) (b a : A) :
    insertAL ((k, b) :: rest) k a = (k, a) :: rest := by
  simp [insertAL]

theorem insertAL_cons_ne (rest : List (K × A)) (k1 k : K) (b a : A) (h : k1 ≠ k) :
    insertAL ((k1, b) :: rest) k a = (k1, b) :: insertAL rest k a := by
  simp [insertAL, h]

theorem mem_keys_insertAL (l : List (K × A)) (k : K) (a : A) (x : K)
    (h : x ∈ (insertAL l k a).map Prod.fst) : x ∈ l.map Prod.fst ∨ x = k := by
  induction l with
  | nil =>
      simp only [insertAL, List.map_cons, List.map_nil, List.mem_singleton] at h
      exact Or.inr h
  | cons kb rest ih =>
      obtain ⟨k1, b⟩ := kb
      by_cases h1 : k1 = k
      · subst h1
        rw [insertAL_cons_self] at h
        simp only [List.map_cons, List.mem_cons] at h ⊢
        rcases h with h | h
        · exact Or.inr h
        · exact Or.inl (Or.inr h)
      · rw [insertAL_cons_ne rest k1 k b a h1] at h
        simp only [List.map_cons, List.mem_cons] at h ⊢
        rcases h with h | h
        · exact Or.inl (Or.inl h)
        · rcases ih h with h2 | h2
          · exact Or.inl (Or.inr h2)
          · exact Or.inr h2

theorem nodup_keys_insertAL (l : List (K × A)) (k : K) (a : A)
    (h : (l.map Prod.fst).Nodup) : ((insertAL l k a).map Prod.fst).Nodup := by
  induction l with
  | nil => simp [insertAL]
  | cons kb rest ih =>
      obtain ⟨k1, b⟩ := kb
      simp only [List.map_cons, List.nodup_cons] at h
      by_cases h1 : k1 = k
      · subst h1
        rw [insertAL_cons_self]
        simp only [List.map_cons, List.nodup_cons]
        exact ⟨h.1, h.2⟩
      · rw [insertAL_cons_ne rest k1 k b a h1]
        simp only [List.map_cons, List.nodup_cons]
        refine ⟨fun hm => ?_, ih h.2⟩
        rcases mem_keys_insertAL rest k a k1 hm with h2 | h2
        · exact h.1 h2
        · exact h1 h2

theorem keys_eraseAL_sublist (l : List (K × A)) (k : K) :
    ((eraseAL l k).map Prod.fst).Sublist (l.map Prod.fst) := by
  induction l with
  | nil => simp [eraseAL]
  | cons kb rest ih =>
      obtain ⟨k1, b⟩ := kb
      by_cases h1 : k1 = k
      · simp only [eraseAL, if_pos h1, List.map_cons]
        exact (List.sublist_cons_self _ _)
      · simp only [eraseAL, if_neg h1, List.map_cons]
        exact ih.cons₂ k1

theorem nodup_keys_eraseAL (l : List (K × A)) (k : K)
    (h : (l.map Prod.fst).Nodup) : ((eraseAL l k).map Prod.fst).Nodup :=
  h.sublist (keys_eraseAL_sublist l k)

/-- A sweep step keeps the keys of the items map duplicate-free. -/
theorem expCheckStep_nodup (table : CacheTable K V C E) (now : Nat)
    (kv : K × CacheItem K V C) (h : (table.items.map Prod.fst).Nodup) :
    ((expCheckStep table now kv).1.items.map Prod.fst).Nodup := by
  unfold expCheckStep addInternal deleteInternal
  dsimp only
  repeat' split
  all_goals first
    | exact h
    | exact nodup_keys_insertAL _ _ _ h
    | exact nodup_keys_eraseAL _ _ h

/-- The tail of the sweep never touches a key that none of its pending
pairs carries. -/
theorem sweepLoop_lookup_not_mem (now : Nat) (pending : List (K × CacheItem K V C))
    (t : CacheTable K V C E) (k : K) (h : k ∉ pending.map Prod.fst) :
    lookupAL (sweepLoop now t pending).1.items k = lookupAL t.items k := by
  induction pending generalizing t with
  | nil => rfl
  | cons kv rest ih =>
      simp only [List.map_cons, List.mem_cons, not_or] at h
      show lookupAL (sweepLoop now (expCheckStep t now kv).1 rest).1.items k = _
      rw [ih _ h.2, expCheckStep_lookup_ne t now kv k h.1]

/-- The sweep preserves every configuration field of the table. -/
theorem sweepLoop_config (now : Nat) (pending : List (K × CacheItem K V C))
    (t : CacheTable K V C E) :
    (sweepLoop now t pending).1.enableAutoLoad = t.enableAutoLoad ∧
    (sweepLoop now t pending).1.loadData = t.loadData ∧
    (sweepLoop now t pending).1.addedItem = t.addedItem ∧
    (sweepLoop now t pending).1.aboutToDeleteItem = t.aboutToDeleteItem := by
  induction pending generalizing t with
  | nil => exact ⟨rfl, rfl, rfl, rfl⟩
  | cons kv rest ih =>
      have hs := expCheckStep_config t now kv
      have hr := ih (expCheckStep t now kv).1
      show (sweepLoop now (expCheckStep t now kv).1 rest).1.enableAutoLoad = _ ∧ _
      exact ⟨hr.1.trans hs.1, hr.2.1.trans hs.2.1, hr.2.2.1.trans hs.2.2.1,
        hr.2.2.2.trans hs.2.2.2⟩

/-- Processing the pair of a key that is currently bound to exactly that
item leaves, under the key, the binding that sweepOutcome prescribes. -/
theorem expCheckStep_lookup_self (table : CacheTable K V C E) (now : Nat)
    (k : K) (item : CacheItem K V C)
    (hnd : (table.items.map Prod.fst).Nodup)
    (hlk : lookupAL table.items k = some item) :
    lookupAL (expCheckStep table now (k, item)).1.items k
      = sweepOutcome table.enableAutoLoad table.loadData now k item := by
  unfold expCheckStep sweepOutcome addInternal deleteInternal
  dsimp only
  repeat' split
  all_goals simp_all [NewCacheItem, lookupAL_insertAL_self, lookupAL_eraseAL_self _ _ hnd]

/-- Main sweep induction: when the pending pairs carry pairwise distinct
keys, the key of each pending pair that the current state still binds to
exactly that item ends the sweep bound to its sweepOutcome, computed with
the configuration of the state (which the sweep preserves). -/
theorem sweepLoop_spec (now : Nat) (pending : List (K × CacheItem K V C))
    (t : CacheTable K V C E) (k : K) (item : CacheItem K V C)
    (hmem : (k, item) ∈ pending)
    (hpnd : (pending.map Prod.fst).Nodup)
    (hnd : (t.items.map Prod.fst).Nodup)
    (hlk : lookupAL t.items k = some item) :
    lookupAL (sweepLoop now t pending).1.items k
      = sweepOutcome t.enableAutoLoad t.loadData now k item := by
  induction pending generalizing t with
  | nil => cases hmem
  | cons kv rest ih =>
      simp only [List.map_cons, List.nodup_cons] at hpnd
      rcases List.mem_cons.mp hmem with h | h
      · subst h
        show lookupAL (sweepLoop now (expCheckStep t now (k, item)).1 rest).1.items k = _
        rw [sweepLoop_lookup_not_mem now rest _ k hpnd.1]
        exact expCheckStep_lookup_self t now k item hnd hlk
      · have hk : k ≠ kv.1 := by
          intro he
          exact hpnd.1 (he ▸ (List.mem_map.mpr ⟨(k, item), h, rfl⟩))
        have hcfg := expCheckStep_config t now kv
        show lookupAL (sweepLoop now (expCheckStep t now kv).1 rest).1.items k = _
        rw [ih (expCheckStep t now kv).1 h hpnd.2 (expCheckStep_nodup t now kv hnd)
          ((expCheckStep_lookup_ne t now kv k hk).trans hlk), hcfg.1, hcfg.2.1]

/-- A sweep step on a pair whose item is expired by creation time but was
accessed within the last two thirds of its lifespan, on a table with
auto-load on and a loader that succeeds on the key, is exactly an
addInternal of the fresh entry built from the loader result. -/
theorem expCheckStep_refresh (t : CacheTable K V C E) (now : Nat) (k : K)
    (item : CacheItem K V C) (f : K → Option V × Nat × Option E)
    (h0 : item.lifeSpan ≠ 0)
    (h1 : item.lifeSpan ≤ now - item.createdOn)
    (hal : t.enableAutoLoad = true)
    (h2 : now - item.accessedOn ≤ item.lifeSpan * 2 / 3)
    (hld : t.loadData = some f)
    (herr : (f k).2.2 = none) :
    expCheckStep t now (k, item) = addInternal t (NewCacheItem k (f k).2.1 (f k).1 now) := by
  unfold expCheckStep
  simp [h0, h1, hal, h2, hld, herr]

/-- On the same refresh conditions, the sweep trace contains, as a
contiguous run, the store of the fresh entry followed by the invocation of
every registered added-item callback on it, in registration order. -/
theorem sweepLoop_refresh_infix (now : Nat) (pending : List (K × CacheItem K V C))
    (t : CacheTable K V C E) (k : K) (item : CacheItem K V C)
    (f : K → Option V × Nat × Option E) (cbs : List C)
    (hmem : (k, item) ∈ pending)
    (h0 : item.lifeSpan ≠ 0)
    (h1 : item.lifeSpan ≤ now - item.createdOn)
    (hal : t.enableAutoLoad = true)
    (h2 : now - item.accessedOn ≤ item.lifeSpan * 2 / 3)
    (hld : t.loadData = some f)
    (herr : (f k).2.2 = none)
    (hcbs : t.addedItem = cbs) :
    List.IsInfix
      (Event.insertItem k (NewCacheItem k (f k).2.1 (f k).1 now) ::
        cbs.map (fun c => Event.invokeAdded c (NewCacheItem k (f k).2.1 (f k).1 now)))
      (sweepLoop now t pending).2 := by
  induction pending generalizing t with
  | nil => cases hmem
  | cons kv rest ih =>
      show List.IsInfix _ ((expCheckStep t now kv).2 ++ (sweepLoop now (expCheckStep t now kv).1 rest).2)
      rcases List.mem_cons.mp hmem with h | h
      · subst h
        subst hcbs
        rw [expCheckStep_refresh t now k item f h0 h1 hal h2 hld herr]
        exact ⟨[], (sweepLoop now (addInternal t (NewCacheItem k (f k).2.1 (f k).1 now)).1 rest).2,
          by simp [addInternal, NewCacheItem]⟩
      · have hcfg := expCheckStep_config t now kv
        have htail := ih (expCheckStep t now kv).1 h (hcfg.1.trans hal)
          (hcfg.2.1.trans hld) (hcfg.2.2.1.trans hcbs)
        exact htail.trans (List.suffix_append _ _).isInfix

/-- Transfers pairwise order through filterMap: if consecutive survivors
stand in S whenever their sources stand in R and each survivor carries the
property Q of its source, the image is pairwise S. -/
theorem pairwise_filterMap_rel {A B : Type} {R : A → A → Prop} {S : B → B → Prop}
    {Q : A → B → Prop} (f : A → Option B) {l : List A}
    (hp : l.Pairwise R)
    (hmem : ∀ a ∈ l, ∀ b, f a = some b → Q a b)
    (hcomp : ∀ a a2 b b2, R a a2 → Q a b → Q a2 b2 → S b b2) :
    (l.filterMap f).Pairwise S := by
  induction l with
  | nil => simp
  | cons a rest ih =>
      obtain ⟨hhead, htail⟩ := List.pairwise_cons.mp hp
      rw [List.filterMap_cons]
      cases hfa : f a with
      | none => exact ih htail (fun x hx => hmem x (List.mem_cons_of_mem _ hx))
      | some b =>
          refine List.Pairwise.cons (fun b2 hb2 => ?_) (ih htail (fun x hx => hmem x (List.mem_cons_of_mem _ hx)))
          obtain ⟨a2, ha2, hfa2⟩ := List.mem_filterMap.mp hb2
          exact hcomp a a2 b b2 (hhead a2 ha2)
            (hmem a (List.mem_cons_self _ _) b hfa)
            (hmem a2 (List.mem_cons_of_mem _ ha2) b2 hfa2)

end Lemmas

section Fixtures

/-- A table with every field at its Go zero value, for concrete
evaluations of the operations. -/
def emptyTable : CacheTable Nat Nat Nat Nat :=
  { name := "t"
    items := []
    cleanupInterval := 0
    defaultExpiration := 0
    enableNullData := false
    enableAutoLoad := false
    janitor := none
    loadData := none
    addedItem := []
    aboutToDeleteItem := [] }

/-- A table with a single registered added-item callback. -/
def tblAdded : CacheTable Nat Nat Nat Nat := { emptyTable with addedItem := [7] }

/-- A non-expiring item carrying one about-to-expire callback. -/
def itmZero : CacheItem Nat Nat Nat :=
  { key := 0, data := some 1, lifeSpan := 0, createdOn := 0, accessedOn := 0,
    accessCount := 0, aboutToExpire := [9] }

/-- A table holding itmZero plus one callback in each table registry. -/
def tblOne : CacheTable Nat Nat Nat Nat :=
  { emptyTable with items := [(0, itmZero)], addedItem := [7], aboutToDeleteItem := [8] }

/-- A table whose loader fails with error 3 while also returning value 7
and lifespan 5; null-on-error disabled. -/
def tblLoadErr : CacheTable Nat Nat Nat Nat :=
  { emptyTable with loadData := some (fun _ => (some 7, 5, some 3)) }

/-- As tblLoadErr with null-on-error enabled. -/
def tblLoadErrNull : CacheTable Nat Nat Nat Nat := { tblLoadErr with enableNullData := true }

/-- An item that at time 100 is expired by creation (lifespan 10, created
at 0) yet was accessed at 95, within the last two thirds of its
lifespan. -/
def itmStale : CacheItem Nat Nat Nat :=
  { key := 0, data := some 1, lifeSpan := 10, createdOn := 0, accessedOn := 95,
    accessCount := 0, aboutToExpire := [] }

/-- A table holding itmStale, with auto-load on, a loader that succeeds
with value 5 and lifespan 20, and one added-item callback. -/
def tblStale : CacheTable Nat Nat Nat Nat :=
  { emptyTable with
    items := [(0, itmStale)]
    enableAutoLoad := true
    loadData := some (fun _ => (some 5, 20, none))
    addedItem := [7] }

/-- The item of the MostAccessed scenario: key i, accessed i times. -/
def item100 (i : Nat) : CacheItem Nat Nat Nat :=
  { key := i, data := some 0, lifeSpan := 10, createdOn := 0, accessedOn := 0,
    accessCount := i, aboutToExpire := [] }

/-- The MostAccessed scenario table: keys 0 to 99, each with accessCount
equal to its key. -/
def table100 : CacheTable Nat Nat Nat Nat :=
  { emptyTable with items := (List.range 100).map (fun i => (i, item100 i)) }

end Fixtures

section FilterHelpers

theorem filter_map_of_true {A B : Type} (p : B → Bool) (g : A → B) (l : List A)
    (h : ∀ a, p (g a) = true) : (l.map g).filter p = l.map g := by
  induction l with
  | nil => rfl
  | cons a rest ih => simp [h, ih]

theorem filter_map_of_false {A B : Type} (p : B → Bool) (g : A → B) (l : List A)
    (h : ∀ a, p (g a) = false) : (l.map g).filter p = [] := by
  induction l with
  | nil => rfl
  | cons a rest ih => simp [h, ih]

end FilterHelpers

section Claims

variable [DecidableEq K]

/-- C1 (code bug): the claim states that the table-level addedObservers
callbacks of Set run only after the Table write lock is released and that
no table-level callback ever runs while the write lock is held.  The code
contradicts it (and the comment of addInternal, which announces an unlock
that the body never performs): Set holds the write lock across
addInternal, which invokes the added-item callbacks.  On a table with one
registered added-item callback, the Set trace carries the invocation
strictly between Lock and Unlock, at write-lock depth one. -/
theorem set_invokes_added_callback_under_write_lock :
    (Set tblAdded 0 5 (some 1) 10).2.2
      = [Event.lock, Event.insertItem 0 (NewCacheItem 0 5 (some 1) 10),
         Event.invokeAdded 7 (NewCacheItem 0 5 (some 1) 10), Event.unlock] ∧
    tableCallbackUnderLock 0 (Set tblAdded 0 5 (some 1) 10).2.2 = true := by
  exact ⟨by decide, by decide⟩

/-- C4 (code bug): the claim states that New with a positive cleanup
interval produces a table with a present, started janitor, and that a
janitor is present iff cleanupInterval is positive.  The New of
src/cache.go never calls runJanitor (unlike the README listing of the
same constructor and unlike what the expiry tests require), so the fresh
table records the interval but carries no janitor; runJanitor itself
would install one. -/
theorem new_with_positive_interval_has_no_janitor :
    (0 : Nat) < 1000 ∧
    (New ([] : Registry Nat Nat Nat Nat) "testCache" 1000).1.cleanupInterval = 1000 ∧
    (New ([] : Registry Nat Nat Nat Nat) "testCache" 1000).1.janitor = none ∧
    (runJanitor (New ([] : Registry Nat Nat Nat Nat) "testCache" 1000).1 1000).janitor
      = some 1000 := by
  exact ⟨by decide, by decide, by decide, by decide⟩

/-- C10: Delete on a present key returns the removed entry itself paired
with a nil error while the entry is taken out of the items map, so the
caller can still read its fields. -/
theorem delete_returns_removed_entry (table : CacheTable K V C E) (key : K)
    (r : CacheItem K V C) (h : lookupAL table.items key = some r) :
    (Delete table key).1 = Except.ok r ∧
    (Delete table key).2.1.items = eraseAL table.items key := by
  simp [Delete, deleteInternal, h]

/-- Witness for C10 at a concrete table: the entry stored under key 0 is
returned and the items map is emptied. -/
theorem delete_returns_removed_entry_witness :
    (Delete tblOne 0).1 = Except.ok itmZero ∧ (Delete tblOne 0).2.1.items = [] := by
  have h := delete_returns_removed_entry tblOne 0 itmZero (by decide)
  exact ⟨h.1, h.2⟩

/-- C5: Delete on an absent key fails with KeyNotFound and leaves the
table untouched; on a present key the full execution is: Lock, Unlock,
every aboutToDeleteItem callback with the entry in registration order,
then every per-entry aboutToExpire callback with the key in registration
order, and only then (after re-acquiring the lock) the removal of the key
from the items map. -/
theorem delete_observers_before_removal (table : CacheTable K V C E) (key : K) :
    (lookupAL table.items key = none →
      Delete table key = (Except.error CErr.keyNotFound, table, [Event.lock, Event.unlock])) ∧
    (∀ r, lookupAL table.items key = some r →
      Delete table key =
        (Except.ok r, { table with items := eraseAL table.items key },
         [Event.lock, Event.unlock]
           ++ table.aboutToDeleteItem.map (fun c => Event.invokeAboutToDelete c r)
           ++ r.aboutToExpire.map (fun c => Event.invokeAboutToExpire c key)
           ++ [Event.lock, Event.removeItem key, Event.unlock])) := by
  constructor
  · intro h
    simp [Delete, deleteInternal, h]
  · intro r h
    simp [Delete, deleteInternal, h]

/-- Witness for C5: on tblOne the delete trace runs the about-to-delete
callback 8 on the entry, then the about-to-expire callback 9 on the key,
then removes; on the empty table Delete fails with KeyNotFound. -/
theorem delete_observers_before_removal_witness :
    (Delete emptyTable 0).1 = Except.error CErr.keyNotFound ∧
    (Delete emptyTable 0).2.1 = emptyTable ∧
    (Delete tblOne 0).2.2
      = [Event.lock, Event.unlock, Event.invokeAboutToDelete 8 itmZero,
         Event.invokeAboutToExpire 9 0, Event.lock, Event.removeItem 0, Event.unlock] := by
  have h1 := (delete_observers_before_removal emptyTable 0).1 (by decide)
  have h2 := (delete_observers_before_removal tblOne 0).2 itmZero (by decide)
  refine ⟨?_, ?_, ?_⟩
  · rw [h1]
  · rw [h1]
  · rw [h2]
    decide

/-- C9: Set on an already present key silently replaces the old entry:
the key ends bound to the fresh entry, every other key keeps its binding,
the trace carries no about-to-delete and no about-to-expire invocation,
and the added-item callbacks are exactly the registered ones, fired on
the fresh entry in registration order. -/
theorem set_replaces_existing_silently (table : CacheTable K V C E) (key : K)
    (lifeSpan : Nat) (data : Option V) (now : Nat) (old : CacheItem K V C)
    (hpresent : lookupAL table.items key = some old) :
    lookupAL (Set table key lifeSpan data now).2.1.items key
        = some (NewCacheItem key lifeSpan data now) ∧
    (∀ k2, k2 ≠ key → lookupAL (Set table key lifeSpan data now).2.1.items k2
        = lookupAL table.items k2) ∧
    (Set table key lifeSpan data now).2.2.filter isAboutToDeleteEvent = [] ∧
    (Set table key lifeSpan data now).2.2.filter isAboutToExpireEvent = [] ∧
    (Set table key lifeSpan data now).2.2.filter isAddedEvent
        = table.addedItem.map (fun c => Event.invokeAdded c (NewCacheItem key lifeSpan data now)) := by
  refine ⟨?_, fun k2 hk2 => ?_, ?_, ?_, ?_⟩
  · exact lookupAL_insertAL_self table.items key (NewCacheItem key lifeSpan data now)
  · exact lookupAL_insertAL_ne table.items key k2 (NewCacheItem key lifeSpan data now) hk2
  · simp [Set, addInternal, isAboutToDeleteEvent,
      filter_map_of_false isAboutToDeleteEvent
        (fun c => Event.invokeAdded c (NewCacheItem key lifeSpan data now))
        table.addedItem (fun a => rfl)]
  · simp [Set, addInternal, isAboutToExpireEvent,
      filter_map_of_false isAboutToExpireEvent
        (fun c => Event.invokeAdded c (NewCacheItem key lifeSpan data now))
        table.addedItem (fun a => rfl)]
  · simp [Set, addInternal, isAddedEvent,
      filter_map_of_true isAddedEvent
        (fun c => Event.invokeAdded c (NewCacheItem key lifeSpan data now))
        table.addedItem (fun a => rfl)]

/-- Witness for C9 at a concrete table: replacing the entry under key 0
leaves the fresh entry there and fires only the added callback. -/
theorem set_replaces_existing_silently_witness :
    lookupAL (Set tblOne 0 5 (some 2) 10).2.1.items 0 = some (NewCacheItem 0 5 (some 2) 10) ∧
    (Set tblOne 0 5 (some 2) 10).2.2.filter isAboutToDeleteEvent = [] := by
  have h := set_replaces_existing_silently tblOne 0 5 (some 2) 10 itmZero (by decide)
  exact ⟨h.1, h.2.2.1⟩

/-- C6: for every callback registry, the Set variant leaves exactly the
one callback it was given, the Add variant appends without clearing, and
fan-out follows registration order: addInternal invokes exactly the
registered added-item callbacks, in order, and deleteInternal on a
present key invokes exactly the registered about-to-delete callbacks and
then the per-entry about-to-expire callbacks, each in registration
order. -/
theorem callback_registries_set_add_order (table : CacheTable K V C E)
    (item : CacheItem K V C) (f : C) (key : K) :
    (SetAddedItemCallback table f).addedItem = [f] ∧
    (AddAddedItemCallback table f).addedItem = table.addedItem ++ [f] ∧
    (SetAboutToDeleteItemCallback table f).aboutToDeleteItem = [f] ∧
    (AddAboutToDeleteItemCallback table f).aboutToDeleteItem
        = table.aboutToDeleteItem ++ [f] ∧
    (SetAboutToExpireCallback f item).aboutToExpire = [f] ∧
    (AddAboutToExpireCallback f item).aboutToExpire = item.aboutToExpire ++ [f] ∧
    (addInternal table item).2.filter isAddedEvent
        = table.addedItem.map (fun c => Event.invokeAdded c item) ∧
    (∀ r, lookupAL table.items key = some r →
      (deleteInternal table key).2.2.filter isAboutToDeleteEvent
          = table.aboutToDeleteItem.map (fun c => Event.invokeAboutToDelete c r) ∧
      (deleteInternal table key).2.2.filter isAboutToExpireEvent
          = r.aboutToExpire.map (fun c => Event.invokeAboutToExpire c key) ∧
      (deleteInternal table key).2.2
          = Event.unlock ::
              (table.aboutToDeleteItem.map (fun c => Event.invokeAboutToDelete c r)
               ++ r.aboutToExpire.map (fun c => Event.invokeAboutToExpire c key)
               ++ [Event.lock, Event.removeItem key])) := by
  refine ⟨?_, rfl, ?_, rfl, ?_, rfl, ?_, fun r h => ⟨?_, ?_, ?_⟩⟩
  · cases h : table.addedItem <;>
      simp [SetAddedItemCallback, AddAddedItemCallback, RemoveAddedItemCallbacks, h]
  · cases h : table.aboutToDeleteItem <;>
      simp [SetAboutToDeleteItemCallback, AddAboutToDeleteItemCallback,
        RemoveAboutToDeleteItemCallback, h]
  · cases h : item.aboutToExpire <;>
      simp [SetAboutToExpireCallback, AddAboutToExpireCallback,
        RemoveAboutToExpireCallback, h]
  · simp [addInternal, isAddedEvent,
      filter_map_of_true isAddedEvent (fun c => Event.invokeAdded c item)
        table.addedItem (fun a => rfl)]
  · simp [deleteInternal, h, List.filter_append, isAboutToDeleteEvent,
      filter_map_of_true isAboutToDeleteEvent (fun c => Event.invokeAboutToDelete c r)
        table.aboutToDeleteItem (fun a => rfl),
      filter_map_of_false isAboutToDeleteEvent (fun c => Event.invokeAboutToExpire c key)
        r.aboutToExpire (fun a => rfl)]
  · simp [deleteInternal, h, List.filter_append, isAboutToExpireEvent,
      filter_map_of_false isAboutToExpireEvent (fun c => Event.invokeAboutToDelete c r)
        table.aboutToDeleteItem (fun a => rfl),
      filter_map_of_true isAboutToExpireEvent (fun c => Event.invokeAboutToExpire c key)
        r.aboutToExpire (fun a => rfl)]
  · simp [deleteInternal, h]

/-- Witness for C6 at concrete values: overwriting registration with
SetAddedItemCallback leaves one callback, and the deleteInternal trace of
tblOne fires callback 8 on the entry and callback 9 on the key. -/
theorem callback_registries_set_add_order_witness :
    (SetAddedItemCallback tblOne 3).addedItem = [3] ∧
    (deleteInternal tblOne 0).2.2.filter isAboutToDeleteEvent
        = [Event.invokeAboutToDelete 8 itmZero] ∧
    (deleteInternal tblOne 0).2.2.filter isAboutToExpireEvent
        = [Event.invokeAboutToExpire 9 0] := by
  have h := callback_registries_set_add_order tblOne itmZero 3 0
  have h2 := h.2.2.2.2.2.2.2 itmZero (by decide)
  exact ⟨h.1, by rw [h2.1]; decide, by rw [h2.2.1]; decide⟩

/-- C2: one expiration pass settles every entry exactly as the claim
prescribes, provided the items map carries pairwise distinct keys (the Go
map invariant).  The capstone equation states that the pass leaves under
each key the binding sweepOutcome computes; the explicit conjuncts spell
the cases out: a zero lifespan is never deleted or replaced; an
unexpired entry is kept; an expired entry that auto-load can refresh
(accessed within the last two thirds of its lifespan, loader succeeds)
is replaced by a fresh entry carrying the loader value and lifespan; an
expired entry is deleted when auto-load is off, when the access was not
recent enough, or when the loader fails. -/
theorem expirationCheck_per_entry (table : CacheTable K V C E) (now : Nat)
    (hnd : (table.items.map Prod.fst).Nodup)
    (k : K) (item : CacheItem K V C) (hmem : (k, item) ∈ table.items) :
    lookupAL (ExpirationCheck table now).1.items k
        = sweepOutcome table.enableAutoLoad table.loadData now k item ∧
    (item.lifeSpan = 0 →
      lookupAL (ExpirationCheck table now).1.items k = some item) ∧
    (item.lifeSpan ≠ 0 → now - item.createdOn < item.lifeSpan →
      lookupAL (ExpirationCheck table now).1.items k = some item) ∧
    (∀ f, item.lifeSpan ≠ 0 → item.lifeSpan ≤ now - item.createdOn →
      table.enableAutoLoad = true → now - item.accessedOn ≤ item.lifeSpan * 2 / 3 →
      table.loadData = some f → (f k).2.2 = none →
      lookupAL (ExpirationCheck table now).1.items k
          = some (NewCacheItem k (f k).2.1 (f k).1 now)) ∧
    (item.lifeSpan ≠ 0 → item.lifeSpan ≤ now - item.createdOn →
      table.enableAutoLoad = false →
      lookupAL (ExpirationCheck table now).1.items k = none) ∧
    (item.lifeSpan ≠ 0 → item.lifeSpan ≤ now - item.createdOn →
      item.lifeSpan * 2 / 3 < now - item.accessedOn →
      lookupAL (ExpirationCheck table now).1.items k = none) ∧
    (∀ f e, item.lifeSpan ≠ 0 → item.lifeSpan ≤ now - item.createdOn →
      table.loadData = some f → (f k).2.2 = some e →
      lookupAL (ExpirationCheck table now).1.items k = none) := by
  have h : lookupAL (ExpirationCheck table now).1.items k
      = sweepOutcome table.enableAutoLoad table.loadData now k item :=
    sweepLoop_spec now table.items table k item hmem hnd hnd
      (lookupAL_of_mem_nodup table.items k item hmem hnd)
  refine ⟨h, ?_, ?_, ?_, ?_, ?_, ?_⟩
  · intro h0
    rw [h]
    simp [sweepOutcome, h0]
  · intro h0 h1
    rw [h]
    simp [sweepOutcome, h0, Nat.not_le.mpr h1]
  · intro f h0 h1 hal h2 hld herr
    rw [h]
    simp [sweepOutcome, h0, h1, hal, h2, hld, herr]
  · intro h0 h1 hal
    rw [h]
    simp [sweepOutcome, h0, h1, hal]
  · intro h0 h1 h2
    rw [h]
    simp [sweepOutcome, h0, h1, Nat.not_le.mpr h2]
  · intro f e h0 h1 hld herr
    rw [h]
    cases hal : table.enableAutoLoad <;>
      simp [sweepOutcome, h0, h1, hld, herr, hal]

/-- Witness for C2 on concrete tables: on tblOne the non-expiring entry
survives any sweep, and on tblStale the stale-but-recently-accessed
entry is replaced by the refreshed loader entry. -/
theorem expirationCheck_per_entry_witness :
    lookupAL (ExpirationCheck tblOne 1000000).1.items 0 = some itmZero ∧
    lookupAL (ExpirationCheck tblStale 100).1.items 0
        = some (NewCacheItem 0 20 (some 5) 100) := by
  refine ⟨(expirationCheck_per_entry tblOne 1000000 (by decide) 0 itmZero (by decide)).2.1 rfl, ?_⟩
  exact (expirationCheck_per_entry tblStale 100 (by decide) 0 itmStale
    (by decide)).2.2.2.1 (fun _ => (some 5, 20, none)) (by decide) (by decide) rfl
    (by decide) rfl rfl

/-- C3 counterexample: the claim says that on a loader error with
allowNullOnLoadError enabled the admitted entry has a NULL value.  The
code admits whatever value the loader returned next to its error: with a
loader returning value 7, lifespan 5 and error 3, Get admits and returns
an entry whose value is 7, not null. -/
theorem get_loader_error_admits_loader_value :
    (Get tblLoadErrNull 0 0).1 = Except.ok (NewCacheItem 0 5 (some 7) 0) ∧
    (NewCacheItem 0 5 (some 7) 0 : CacheItem Nat Nat Nat).data ≠ none := by
  exact ⟨rfl, by decide⟩

/-- C3 (amended): Get on a missing key whose loader fails: with
allowNullOnLoadError disabled the very loader error is propagated and the
table is left untouched; with it enabled an entry carrying the loader
returned value (null exactly when the loader returned null next to its
error) and the returned lifespan is admitted, Get returns it without
error, and ExistsKey then reports the key. -/
theorem get_loader_error_paths (table : CacheTable K V C E) (key : K) (now : Nat)
    (f : K → Option V × Nat × Option E) (v : Option V) (span : Nat) (e : E)
    (hmiss : lookupAL table.items key = none)
    (hld : table.loadData = some f)
    (hf : f key = (v, span, some e)) :
    (table.enableNullData = false →
      (Get table key now).1 = Except.error (CErr.loaderErr e) ∧
      (Get table key now).2.1 = table) ∧
    (table.enableNullData = true →
      (Get table key now).1 = Except.ok (NewCacheItem key span v now) ∧
      (Get table key now).2.1.items
          = insertAL table.items key (NewCacheItem key span v now) ∧
      ExistsKey (Get table key now).2.1 key = true) := by
  constructor
  · intro hnull
    simp [Get, hmiss, hld, hf, hnull]
  · intro hnull
    refine ⟨?_, ?_, ?_⟩
    · simp [Get, hmiss, hld, hf, hnull]
    · simp [Get, hmiss, hld, hf, hnull, addInternal, NewCacheItem]
    · simp [Get, hmiss, hld, hf, hnull, addInternal, ExistsKey, NewCacheItem,
        lookupAL_insertAL_self]

/-- Witness for C3 at the concrete failing loader: with null-on-error off
the loader error 3 comes back verbatim and nothing is admitted; with it
on the key exists afterwards. -/
theorem get_loader_error_paths_witness :
    (Get tblLoadErr 0 0).1 = Except.error (CErr.loaderErr 3) ∧
    (Get tblLoadErr 0 0).2.1 = tblLoadErr ∧
    ExistsKey (Get tblLoadErrNull 0 0).2.1 0 = true := by
  have hF := (get_loader_error_paths tblLoadErr 0 0 (fun _ => (some 7, 5, some 3))
    (some 7) 5 3 rfl rfl rfl).1 rfl
  have hT := (get_loader_error_paths tblLoadErrNull 0 0 (fun _ => (some 7, 5, some 3))
    (some 7) 5 3 rfl rfl rfl).2 rfl
  exact ⟨hF.1, hF.2, hT.2.2⟩

/-- C8: when a sweep refreshes an expired-but-recently-accessed entry,
the replacement goes through addInternal exactly as a Set admission does:
the sweep trace contains, contiguously, the store of the fresh loader
entry followed by the invocation of every registered added-item callback
on that entry, in registration order. -/
theorem sweep_refresh_fires_added_callbacks (table : CacheTable K V C E) (now : Nat)
    (k : K) (item : CacheItem K V C) (f : K → Option V × Nat × Option E)
    (hmem : (k, item) ∈ table.items)
    (h0 : item.lifeSpan ≠ 0)
    (h1 : item.lifeSpan ≤ now - item.createdOn)
    (hal : table.enableAutoLoad = true)
    (h2 : now - item.accessedOn ≤ item.lifeSpan * 2 / 3)
    (hld : table.loadData = some f)
    (herr : (f k).2.2 = none) :
    List.IsInfix
      (Event.insertItem k (NewCacheItem k (f k).2.1 (f k).1 now) ::
        table.addedItem.map (fun c => Event.invokeAdded c (NewCacheItem k (f k).2.1 (f k).1 now)))
      (ExpirationCheck table now).2 := by
  obtain ⟨s, t2, he⟩ := sweepLoop_refresh_infix now table.items table k item f
    table.addedItem hmem h0 h1 hal h2 hld herr rfl
  refine ⟨Event.lock :: s, t2 ++ [Event.unlock], ?_⟩
  show _ = Event.lock :: (sweepLoop now table table.items).2 ++ [Event.unlock]
  rw [← he]
  simp

/-- Witness for C8 on tblStale: the sweep trace contains the store of the
refreshed entry followed by added callback 7 on it. -/
theorem sweep_refresh_fires_added_callbacks_witness :
    List.IsInfix
      [Event.insertItem 0 (NewCacheItem 0 20 (some 5) 100),
       Event.invokeAdded 7 (NewCacheItem 0 20 (some 5) 100)]
      (ExpirationCheck tblStale 100).2 := by
  exact sweep_refresh_fires_added_callbacks tblStale 100 0 itmStale
    (fun _ => (some 5, 20, none)) (by decide) (by decide) (by decide) rfl (by decide) rfl rfl

/-- C7: MostAccessed returns at most count entries; the entries come out
ordered by non-increasing access count; every returned entry is one
stored in the items map, carried unchanged (so no access count is
modified); and on the scenario table with keys 0 to 99, each accessed as
often as its key value, MostAccessed 100 returns the entries in
descending key order starting at 99 and MostAccessed 99 returns 99
entries. -/
theorem mostAccessed_ordered_and_pure :
    (∀ (K2 : Type) [DecidableEq K2], ∀ (V2 C2 E2 : Type)
       (table : CacheTable K2 V2 C2 E2) (n : Nat),
       (table.items.map Prod.fst).Nodup →
         (MostAccessed table n).length ≤ n ∧
         (MostAccessed table n).Pairwise (fun a b => b.accessCount ≤ a.accessCount) ∧
         (∀ it ∈ MostAccessed table n, ∃ k2, lookupAL table.items k2 = some it)) ∧
    (MostAccessed table100 100).map CacheItem.key = (List.range 100).reverse ∧
    (MostAccessed table100 99).length = 99 := by
  refine ⟨?_, by decide, by decide⟩
  intro K2 _ V2 C2 E2 table n hnd
  haveI : IsTotal (K2 × Nat) (fun a b => b.2 ≤ a.2) := ⟨fun a b => le_total b.2 a.2⟩
  haveI : IsTrans (K2 × Nat) (fun a b => b.2 ≤ a.2) := ⟨fun a b c h1 h2 => le_trans h2 h1⟩
  have hsorted : ((List.insertionSort (fun a b : K2 × Nat => b.2 ≤ a.2)
      (table.items.map (fun kv => (kv.1, kv.2.accessCount)))).take n).Pairwise
        (fun a b : K2 × Nat => b.2 ≤ a.2) :=
    List.Pairwise.sublist (List.take_sublist n _)
      (List.sorted_insertionSort (fun a b : K2 × Nat => b.2 ≤ a.2) _)
  refine ⟨?_, ?_, ?_⟩
  · exact le_trans (List.length_filterMap_le _ _) (List.length_take_le _ _)
  · refine pairwise_filterMap_rel
      (Q := fun (p : K2 × Nat) (it : CacheItem K2 V2 C2) => it.accessCount = p.2)
      (fun v => lookupAL table.items v.1) hsorted ?_ ?_
    · intro p hp it hit
      have hp2 : p ∈ table.items.map (fun kv => (kv.1, kv.2.accessCount)) :=
        (List.mem_insertionSort _).mp (List.mem_of_mem_take hp)
      obtain ⟨kv, hkv, hpe⟩ := List.mem_map.mp hp2
      have hl : lookupAL table.items kv.1 = some kv.2 :=
        lookupAL_of_mem_nodup table.items kv.1 kv.2 (by rw [Prod.mk.eta]; exact hkv) hnd
      rw [← hpe] at hit ⊢
      dsimp only at hit ⊢
      rw [hl] at hit
      rw [Option.some.injEq] at hit
      rw [hit]
    · intro a a2 b b2 hR hQ hQ2
      rw [hQ, hQ2]
      exact hR
  · intro it hmem2
    obtain ⟨p, hp, hf⟩ := List.mem_filterMap.mp hmem2
    exact ⟨p.1, hf⟩

/-- Witness for C7 on a concrete table with one stored entry. -/
theorem mostAccessed_ordered_and_pure_witness :
    (MostAccessed tblOne 5).length ≤ 5 ∧
    (MostAccessed tblOne 5).Pairwise (fun a b => b.accessCount ≤ a.accessCount) := by
  have h := mostAccessed_ordered_and_pure.1 Nat Nat Nat Nat tblOne 5 (by decide)
  exact ⟨h.1, h.2.1⟩

end Claims

end Cacher
